import Mathlib

/-!
# Verification of `videomamba/video_sm/engines/engine_for_finetuning_regression.py`

Shallow embedding of the epoch trainer, final tester, result merger and the
loss-scale probe of the regression fine-tuning engine, together with theorems
settling the specification claims about them.

Numeric values (losses, predictions, labels, learning rates, weight decays)
are modelled as exact rationals `ℚ`; Python string operations used by the
merger (`strip`, `split(' ')`, `float(...)`, string concatenation) are
modelled character-exactly on `List Char` / `String`.
-/

namespace EngineRegression

/-! ## Python string primitives used by `merge` -/

/-- Python `str.split(sep)` for a single-character separator: splits on every
occurrence, keeping empty pieces between consecutive separators. -/
def splitOnChar (sep : Char) (cs : List Char) : List (List Char) :=
  cs.foldr
    (fun x acc =>
      match acc with
      | [] => [[x]]
      | a :: as => if x = sep then [] :: a :: as else (x :: a) :: as)
    [[]]

/-- Python `str.strip()` restricted to the whitespace characters that occur in
result files (spaces and the trailing newline from `readlines`). -/
def pyStrip (cs : List Char) : List Char :=
  ((cs.dropWhile (fun c => c = ' ' ∨ c = '\n')).reverse.dropWhile
    (fun c => c = ' ' ∨ c = '\n')).reverse

/-- Value of a list of decimal digit characters. -/
def digitsToNat (cs : List Char) : ℕ :=
  cs.foldl (fun n c => n * 10 + (c.toNat - 48)) 0

/-- Python `float(...)` on the decimal literals that occur in result files:
an optional sign followed by digits with at most one decimal point (at least
one digit overall).  Any other string — in particular a bracketed form such
as `"[0.9]"` — fails to parse, as Python `float` raises `ValueError` there.
Scientific notation, `inf` and `nan` are never produced by this pipeline and
are not modelled. -/
def pyFloat? (s : String) : Option ℚ :=
  let (sign, body) : ℚ × List Char :=
    match s.data with
    | '-' :: rest => (-1, rest)
    | '+' :: rest => (1, rest)
    | cs => (1, cs)
  match splitOnChar '.' body with
  | [ip] =>
      if ip ≠ [] ∧ ip.all Char.isDigit then
        some (sign * digitsToNat ip)
      else none
  | [ip, fp] =>
      if (ip ≠ [] ∨ fp ≠ []) ∧ ip.all Char.isDigit ∧ fp.all Char.isDigit then
        some (sign * ((digitsToNat ip : ℚ) + (digitsToNat fp : ℚ) / (10 : ℚ) ^ fp.length))
      else none
  | _ => none

/-! ## Insertion-ordered dictionaries (Python `dict`) -/

/-- Lookup in an insertion-ordered association list (Python `d[k]` /
`k in d`). -/
def dictGet {α : Type} (d : List (String × α)) (k : String) : Option α :=
  match d with
  | [] => none
  | (k', v) :: rest => if k' = k then some v else dictGet rest k

/-- Python `d[k] = v`: replaces the value in place when the key is present
(preserving insertion order), appends at the end otherwise. -/
def dictSet {α : Type} (d : List (String × α)) (k : String) (v : α) :
    List (String × α) :=
  match d with
  | [] => [(k, v)]
  | (k', v') :: rest => if k' = k then (k, v) :: rest else (k', v') :: dictSet rest k v

/-! ## The result merger (`merge` / `compute_video`) -/

/-- The three dictionaries built by `merge` while reading worker files:
`dict_feats` (retained predictions per identifier), `dict_label` (last
retained label per identifier) and `dict_pos` (deduplication keys per
identifier, each key the string concatenation `chunk_nb + split_nb`). -/
structure MergeState where
  feats : List (String × List ℚ)
  label : List (String × ℚ)
  pos : List (String × List String)
deriving DecidableEq

/-- Initial state: three empty dictionaries. -/
def initMergeState : MergeState := ⟨[], [], []⟩

/-- Errors `merge` can raise while reading files: a record line that is too
short or whose prediction/label field is not a float literal (`IndexError` /
`ValueError` in Python), and `np.mean` over an empty result list. -/
inductive MergeErr where
  | badLine
  | emptyMean
deriving DecidableEq

/-- Parse one record line the way `merge` does: `line.strip().split(' ')`,
then `name = line[0]`, `data = float(line[1])`, `label = float(line[2])`,
`chunk_nb = line[3]`, `split_nb = line[4]`. -/
def parseLine? (line : String) :
    Option (String × ℚ × ℚ × String × String) :=
  match (splitOnChar ' ' (pyStrip line.data)).map List.asString with
  | name :: dataStr :: labelStr :: chunk_nb :: split_nb :: _ =>
      match pyFloat? dataStr, pyFloat? labelStr with
      | some data, some label => some (name, data, label, chunk_nb, split_nb)
      | _, _ => none
  | _ => none

/-- The `if not name in dict_feats` initialization of `merge` (source lines
265–268): a fresh identifier gets an empty prediction list, the label 0 and
an empty deduplication list. -/
def initName (st : MergeState) (name : String) : MergeState :=
  if (dictGet st.feats name).isNone then
    { feats := dictSet st.feats name []
      label := dictSet st.label name 0
      pos := dictSet st.pos name [] }
  else st

/-- The dictionary updates of `merge` for one parsed record: initialize the
three dictionaries on a fresh identifier, then skip the record (`continue`)
when its `chunk_nb + split_nb` key is already in `dict_pos[name]`, otherwise
append the prediction and the key and overwrite the label. -/
def processParsed (st : MergeState) (name : String) (data label : ℚ)
    (chunk_nb split_nb : String) : MergeState :=
  let st := initName st name
  if chunk_nb ++ split_nb ∈ (dictGet st.pos name).getD [] then st
  else
    { feats := dictSet st.feats name ((dictGet st.feats name).getD [] ++ [data])
      label := dictSet st.label name label
      pos := dictSet st.pos name ((dictGet st.pos name).getD [] ++ [chunk_nb ++ split_nb]) }

/-- One iteration of the record loop of `merge`. -/
def processLine (st : MergeState) (line : String) : Except MergeErr MergeState :=
  match parseLine? line with
  | some (name, data, label, chunk_nb, split_nb) =>
      .ok (processParsed st name data label chunk_nb split_nb)
  | none => .error .badLine

/-- The record loop of `merge` over the body lines of one worker file. -/
def processLines (st : MergeState) : List String → Except MergeErr MergeState
  | [] => .ok st
  | line :: rest =>
      match processLine st line with
      | .ok st' => processLines st' rest
      | .error e => .error e

/-- The file loop of `merge`: for each worker file, drop the header line
(`readlines()[1:]`) and process the remaining record lines. -/
def processFiles (st : MergeState) : List (List String) → Except MergeErr MergeState
  | [] => .ok st
  | file :: rest =>
      match processLines st (file.drop 1) with
      | .ok st' => processFiles st' rest
      | .error e => .error e

/-- Arithmetic mean of a list (`np.mean`). -/
def listMean (l : List ℚ) : ℚ := l.sum / l.length

/-- Model of `compute_video`: mean of the retained predictions of one identifier,
squared error against its label. -/
def compute_video (data : List ℚ) (label : ℚ) : ℚ :=
  (listMean data - label) ^ 2

/-- Model of `merge`, with the contents of the worker files `0.txt .. (num_tasks-1).txt`
passed as lists of lines: build the three dictionaries, apply `compute_video`
to every identifier in insertion order, and return the mean of the per-
identifier squared errors. -/
def merge (files : List (List String)) : Except MergeErr ℚ :=
  match processFiles initMergeState files with
  | .error e => .error e
  | .ok st =>
      let mse := st.feats.map (fun p => compute_video p.2 ((dictGet st.label p.1).getD 0))
      if mse.isEmpty then .error .emptyMean else .ok (listMean mse)

/-! ## Python-level errors -/

/-- Python exceptions that the embedded fragments can raise: `AttributeError`
from a failed attribute access and the `NameError`/`UnboundLocalError` from
reading the never-assigned loop variable `loss` in `final_test` on an empty
data source. -/
inductive PyErr where
  | attributeError
  | nameError
deriving DecidableEq

/-! ## `get_loss_scale_for_deepspeed` -/

/-- The optimizer object attached to a DeepSpeed model wrapper: each of the
two scale attributes is either present with a value or absent (`none`), in
which case reading it raises `AttributeError`. -/
structure DSOptimizer where
  loss_scale : Option ℚ
  cur_scale : Option ℚ
deriving DecidableEq

/-- A model wrapper: accessing its `optimizer` attribute either yields the
optimizer or raises. -/
structure DSModel where
  optimizer : Except PyErr DSOptimizer

/-- The body of the `try` block of `get_loss_scale_for_deepspeed`:
`optimizer.loss_scale if hasattr(optimizer, "loss_scale") else
optimizer.cur_scale`. -/
def readLossScale (optimizer : DSOptimizer) : Except PyErr ℚ :=
  if h : optimizer.loss_scale.isSome then .ok (optimizer.loss_scale.get h)
  else
    match optimizer.cur_scale with
    | some v => .ok v
    | none => .error .attributeError

/-- Model of `get_loss_scale_for_deepspeed`: the access `optimizer = model.optimizer`
happens before the `try` block, so a failure there propagates; any exception
raised inside the guarded read is turned into the fallback value `0`. -/
def get_loss_scale_for_deepspeed (model : DSModel) : Except PyErr ℚ :=
  match model.optimizer with
  | .error e => .error e
  | .ok optimizer =>
      .ok (match readLossScale optimizer with
           | .ok v => v
           | .error _ => 0)

/-! ## The epoch trainer (`train_one_epoch`) -/

/-- An optimizer parameter group: the mutable `lr` and `weight_decay` entries
and the optional `lr_scale` entry read by the schedule update. -/
structure ParamGroup where
  lr : ℚ
  lr_scale : Option ℚ
  weight_decay : ℚ
deriving DecidableEq

/-- The three mutually exclusive gradient-update strategies of
`train_one_epoch`: `deepspeed` is the framework-managed path
(`loss_scaler is None`), `scaled` the gradient-scaling-helper path, and
`plainNone` the plain-optimizer path (`loss_scaler == 'none'`). -/
inductive ScalerCfg where
  | deepspeed
  | scaled
  | plainNone
deriving DecidableEq

/-- The configuration of one `train_one_epoch` call.  The schedule tables are
total maps from the global step index, matching the precomputed arrays of the
external driver. -/
structure TrainCfg where
  startSteps : ℕ
  lrSchedule : Option (ℕ → ℚ)
  wdSchedule : Option (ℕ → ℚ)
  numTrainingStepsPerEpoch : ℕ
  updateFreq : ℕ
  scaler : ScalerCfg
  hasModelEma : Bool
  hasLogWriter : Bool

/-- The observable effects of the training loop on one process: the mutated
parameter groups, and counters for optimizer steps, per-micro-batch
`model.step()` calls of the framework-managed path, forward and backward
passes, EMA updates, metric-logger updates and log-writer updates. -/
structure TrainState where
  paramGroups : List ParamGroup
  optimizerSteps : ℕ
  modelStepCalls : ℕ
  forwardPasses : ℕ
  backwardPasses : ℕ
  emaUpdates : ℕ
  metricUpdates : ℕ
  logWriterUpdates : ℕ
deriving DecidableEq

/-- Fresh counters at the start of an epoch. -/
def initTrainState (groups : List ParamGroup) : TrainState :=
  ⟨groups, 0, 0, 0, 0, 0, 0, 0⟩

/-- The schedule overwrite applied to one parameter group inside the update
block (source lines 53–60): when a learning-rate schedule is configured the
group's `lr` becomes `lr_schedule_values[it]`, times `lr_scale` when that key
is present; when a weight-decay schedule is configured and the group's decay
is positive, the decay becomes `wd_schedule_values[it]`. -/
def updateParamGroup (lrSchedule wdSchedule : Option (ℕ → ℚ)) (it : ℕ)
    (g : ParamGroup) : ParamGroup :=
  let g1 :=
    match lrSchedule with
    | some sched =>
        match g.lr_scale with
        | some sc => { g with lr := sched it * sc }
        | none => { g with lr := sched it }
    | none => g
  match wdSchedule with
  | some wsched => if g1.weight_decay > 0 then { g1 with weight_decay := wsched it } else g1
  | none => g1

/-- The body of the training loop for batch index `data_iter_step` (source
lines 46–152).  The gating condition of the schedule-update block is
translated with Python's operator precedence:
`lr_schedule_values is not None or (wd_schedule_values is not None and
data_iter_step % update_freq == 0)`.  In the framework-managed path
`model.step()` is called on every micro-batch and DeepSpeed itself performs
the underlying optimizer step and gradient zeroing once per accumulation
window (source comment at lines 94–95: "Deepspeed will call step() &
model.zero_grad() automatic"), which is when `optimizerSteps` advances. -/
def processBatch (cfg : TrainCfg) (st : TrainState) (data_iter_step : ℕ) : TrainState :=
  let step := data_iter_step / cfg.updateFreq
  if step ≥ cfg.numTrainingStepsPerEpoch then st
  else
    let it := cfg.startSteps + step
    let groups :=
      if cfg.lrSchedule.isSome ||
          (cfg.wdSchedule.isSome && (data_iter_step % cfg.updateFreq == 0)) then
        st.paramGroups.map (updateParamGroup cfg.lrSchedule cfg.wdSchedule it)
      else st.paramGroups
    let boundary := (data_iter_step + 1) % cfg.updateFreq == 0
    let st := { st with paramGroups := groups, forwardPasses := st.forwardPasses + 1 }
    let st :=
      match cfg.scaler with
      | .deepspeed =>
          { st with
            backwardPasses := st.backwardPasses + 1
            modelStepCalls := st.modelStepCalls + 1
            optimizerSteps := if boundary then st.optimizerSteps + 1 else st.optimizerSteps
            emaUpdates :=
              if boundary && cfg.hasModelEma then st.emaUpdates + 1 else st.emaUpdates }
      | .scaled =>
          { st with
            backwardPasses := st.backwardPasses + 1
            optimizerSteps := if boundary then st.optimizerSteps + 1 else st.optimizerSteps
            emaUpdates :=
              if boundary && cfg.hasModelEma then st.emaUpdates + 1 else st.emaUpdates }
      | .plainNone =>
          { st with
            backwardPasses := st.backwardPasses + 1
            optimizerSteps := if boundary then st.optimizerSteps + 1 else st.optimizerSteps
            emaUpdates :=
              if boundary && cfg.hasModelEma then st.emaUpdates + 1 else st.emaUpdates }
    let st := { st with metricUpdates := st.metricUpdates + 1 }
    if cfg.hasLogWriter then { st with logWriterUpdates := st.logWriterUpdates + 1 } else st

/-- One epoch over a data source yielding `numBatches` batches. -/
def train_one_epoch (cfg : TrainCfg) (numBatches : ℕ) (groups : List ParamGroup) :
    TrainState :=
  (List.range numBatches).foldl (processBatch cfg) (initTrainState groups)

/-! ## The final tester (`final_test`) -/

/-- One batch of the test loader: per-sample inputs, regression targets,
identifiers and chunk/split metadata. -/
structure TestBatch where
  videos : List ℚ
  targets : List ℚ
  ids : List String
  chunk_nbs : List ℤ
  split_nbs : List ℤ

/-- One per-sample record line of a result file:
`<identifier> <prediction> <label> <chunk_index> <split_index>`. -/
structure TestRecord where
  id : String
  pred : ℚ
  label : ℚ
  chunk : ℤ
  split : ℤ
deriving DecidableEq

/-- A line of the written result file: the loss header or a sample record. -/
inductive TestFileLine where
  | header (loss : ℚ)
  | record (r : TestRecord)
deriving DecidableEq

/-- Mean-squared-error criterion (`torch.nn.MSELoss`, default mean
reduction). -/
def mseLoss (output target : List ℚ) : ℚ :=
  listMean ((output.zip target).map (fun p => (p.1 - p.2) ^ 2))

/-- Model outputs for one batch: `model(videos)[:, 0]`, with the forward pass
and channel selection abstracted into `modelF`. -/
def batchOutput (modelF : ℚ → ℚ) (b : TestBatch) : List ℚ :=
  b.videos.map modelF

/-- Loss `criterion(output, target)` for one batch. -/
def batchLoss (modelF : ℚ → ℚ) (b : TestBatch) : ℚ :=
  mseLoss (batchOutput modelF b) b.targets

/-- The record lines appended for one batch: one per entry of `output`, in
order, pairing each prediction with the identifier, label and chunk/split
metadata at the same index. -/
def batchRecords (modelF : ℚ → ℚ) (b : TestBatch) : List TestRecord :=
  (List.range (batchOutput modelF b).length).map (fun i =>
    { id := b.ids.getD i ""
      pred := (batchOutput modelF b).getD i 0
      label := b.targets.getD i 0
      chunk := b.chunk_nbs.getD i 0
      split := b.split_nbs.getD i 0 })

/-- The loop of `final_test`: carries the loop variable `loss` (unassigned
before the first batch), the accumulated `final_result` record list, and the
per-batch losses fed to the metric logger. -/
def finalTestLoop (modelF : ℚ → ℚ) (batches : List TestBatch) :
    Option ℚ × List TestRecord × List ℚ :=
  batches.foldl
    (fun acc b =>
      (some (batchLoss modelF b),
       acc.2.1 ++ batchRecords modelF b,
       acc.2.2 ++ [batchLoss modelF b]))
    (none, [], [])

/-- Model of `final_test`: run the loop, create the output file if absent (`os.mknod`)
and truncate it (`open(file, 'w')`), then write the last batch's scalar loss
as the header line followed by all accumulated record lines, and return the
metric logger's global average loss.  On an empty data source the header
write reads the never-assigned loop variable `loss` and raises, leaving the
file empty; the prior content `_prevFile` is discarded either way. -/
def final_test (modelF : ℚ → ℚ) (batches : List TestBatch)
    (_prevFile : Option (List TestFileLine)) :
    List TestFileLine × Except PyErr ℚ :=
  let acc := finalTestLoop modelF batches
  match acc.1 with
  | none => ([], .error .nameError)
  | some lastLoss =>
      (.header lastLoss :: acc.2.1.map .record, .ok (listMean acc.2.2))

/-! ## Helper lemmas about the Python-dict model -/

theorem dictGet_dictSet_self {α : Type} (d : List (String × α)) (k : String) (v : α) :
    dictGet (dictSet d k v) k = some v := by
  induction d with
  | nil => simp [dictGet, dictSet]
  | cons p rest ih =>
      rcases p with ⟨k1, v1⟩
      by_cases h : k1 = k
      · subst h; simp [dictGet, dictSet]
      · simp [dictGet, dictSet, h, ih]

theorem dictGet_dictSet_ne {α : Type} (d : List (String × α)) (k k' : String) (v : α)
    (h : k' ≠ k) : dictGet (dictSet d k v) k' = dictGet d k' := by
  induction d with
  | nil => simp [dictGet, dictSet, Ne.symm h]
  | cons p rest ih =>
      rcases p with ⟨k1, v1⟩
      by_cases h1 : k1 = k
      · subst h1
        simp [dictGet, dictSet, Ne.symm h]
      · simp [dictGet, dictSet, h1, ih]

end EngineRegression

namespace EngineRegression

/-! ## Theorems for the claims -/

/-- Claim C7 (counterexample): the claim says `get_loss_scale_for_deepspeed`
never raises, but the access `model.optimizer` happens before the `try`
block, so a model whose `optimizer` attribute access fails propagates the
exception instead of yielding the fallback 0. -/
theorem get_loss_scale_raises_counterexample :
    get_loss_scale_for_deepspeed ⟨.error .attributeError⟩ =
      .error .attributeError := rfl

/-- Claim C7 (amended): once `model.optimizer` has been read successfully,
`get_loss_scale_for_deepspeed` never raises, and any failure of the guarded
loss-scale read (in particular both scale attributes missing) yields the
fallback value 0. -/
theorem get_loss_scale_fallback (opt : DSOptimizer) :
    (∃ v, get_loss_scale_for_deepspeed ⟨.ok opt⟩ = .ok v) ∧
    (∀ e, readLossScale opt = .error e →
      get_loss_scale_for_deepspeed ⟨.ok opt⟩ = .ok 0) := by
  refine ⟨⟨_, rfl⟩, fun e he => ?_⟩
  simp [get_loss_scale_for_deepspeed, he]

/-- Witness for the amended C7 at an optimizer with both scale attributes
absent. -/
theorem get_loss_scale_fallback_witness :
    get_loss_scale_for_deepspeed ⟨.ok ⟨none, none⟩⟩ = .ok 0 :=
  (get_loss_scale_fallback ⟨none, none⟩).2 .attributeError rfl

/-- Claim C8: a batch whose logical step `data_iter_step // update_freq`
reaches `num_training_steps_per_epoch` is a complete no-op: the training
state (parameter groups and every effect counter — forward/backward passes,
optimizer steps, EMA, metric and log-writer updates) is unchanged. -/
theorem processBatch_skip (cfg : TrainCfg) (st : TrainState) (i : ℕ)
    (h : i / cfg.updateFreq ≥ cfg.numTrainingStepsPerEpoch) :
    processBatch cfg st i = st := by
  simp [processBatch, h]

/-- Witness for C8: with 2 steps per epoch and update frequency 3, batch
index 9 (logical step 3) leaves the state untouched. -/
theorem processBatch_skip_witness :
    (9 : ℕ) / (3 : ℕ) ≥ 2 ∧
    processBatch ⟨0, none, none, 2, 3, .plainNone, true, true⟩
        (initTrainState [⟨1, none, 1⟩]) 9 =
      initTrainState [⟨1, none, 1⟩] :=
  ⟨by decide,
   processBatch_skip ⟨0, none, none, 2, 3, .plainNone, true, true⟩
     (initTrainState [⟨1, none, 1⟩]) 9 (by decide)⟩

/-- Claim C10: on an empty data source `final_test` reads the never-assigned
loop variable `loss` while writing the header; the call fails with a
name-resolution error, no statistics mapping is produced, and the output
file (created beforehand if absent, truncated by the `'w'` open) is left
empty. -/
theorem final_test_empty_source (modelF : ℚ → ℚ)
    (prev : Option (List TestFileLine)) :
    final_test modelF [] prev = ([], .error .nameError) := rfl

/-- Claim C9: the deduplication key of `merge` is the *string concatenation*
`chunk_nb + split_nb`, so the distinct positions (chunk `1`, split `11`) and
(chunk `11`, split `1`) collide on the key `111`: the second record's
prediction 0.7 is silently discarded, only 0.5 is retained for `s`, and the
final score is `(0.5 - 1.0)^2`. -/
theorem merge_concat_key_collision :
    ("1", "11") ≠ ("11", "1") ∧ ("1" ++ "11" : String) = "11" ++ "1" ∧
    processFiles initMergeState [["0.5", "s 0.5 1.0 1 11", "s 0.7 1.0 11 1"]] =
      .ok ⟨[("s", [1/2])], [("s", 1)], [("s", ["111"])]⟩ ∧
    merge [["0.5", "s 0.5 1.0 1 11", "s 0.7 1.0 11 1"]] = .ok ((1/2 - 1) ^ 2) := by
  exact ⟨by decide, rfl, by with_unfolding_all rfl, by with_unfolding_all rfl⟩

/-- Claim C2 (counterexample): in the claim's duplicate-key scenario both
workers write the literal line `sampleA [0.9] 1.0 0 0`, but `merge` parses
the prediction field with `float(line[1])`, and `float("[0.9]")` raises
`ValueError`; the call aborts instead of producing a final mean of 0.9. -/
theorem merge_dedup_bracket_counterexample :
    merge [["0.5", "sampleA [0.9] 1.0 0 0"], ["0.5", "sampleA [0.9] 1.0 0 0"]] =
      .error .badLine := by
  with_unfolding_all rfl

/-- Claim C2 (amended): a record whose `chunk_nb + split_nb` key is already in
`dict_pos[name]` is skipped without updating `dict_feats`, `dict_pos` or
`dict_label`; and in the duplicate scenario with bracket-free prediction
fields (`sampleA 0.9 1.0 0 0` written by both workers) only the first
occurrence is retained, so the final mean for `sampleA` is 0.9 and the final
score is `(0.9 - 1.0)^2`. -/
theorem merge_dedup_skip (st : MergeState) (line name : String)
    (data label : ℚ) (chunk_nb split_nb : String)
    (hparse : parseLine? line = some (name, data, label, chunk_nb, split_nb))
    (hname : (dictGet st.feats name).isSome)
    (hkey : chunk_nb ++ split_nb ∈ (dictGet st.pos name).getD []) :
    processLine st line = .ok st ∧
    processFiles initMergeState
        [["0.5", "sampleA 0.9 1.0 0 0"], ["0.5", "sampleA 0.9 1.0 0 0"]] =
      .ok ⟨[("sampleA", [9/10])], [("sampleA", 1)], [("sampleA", ["00"])]⟩ ∧
    merge [["0.5", "sampleA 0.9 1.0 0 0"], ["0.5", "sampleA 0.9 1.0 0 0"]] =
      .ok ((9/10 - 1) ^ 2) := by
  refine ⟨?_, by with_unfolding_all rfl, by with_unfolding_all rfl⟩
  simp only [processLine, hparse]
  have hnone : (dictGet st.feats name).isNone = false := by
    rcases Option.isSome_iff_exists.mp hname with ⟨v, hv⟩
    simp [hv]
  simp [processParsed, initName, hnone, hkey]

/-- Witness for the amended C2: a concrete state already holding the key
`"00"` for identifier `a` absorbs the record `a 0.5 2.0 0 0` unchanged. -/
theorem merge_dedup_skip_witness :
    processLine ⟨[("a", [1])], [("a", 2)], [("a", ["00"])]⟩ "a 0.5 2.0 0 0" =
      .ok ⟨[("a", [1])], [("a", 2)], [("a", ["00"])]⟩ ∧
    merge [["0.5", "sampleA 0.9 1.0 0 0"], ["0.5", "sampleA 0.9 1.0 0 0"]] =
      .ok ((9/10 - 1) ^ 2) := by
  have h := merge_dedup_skip ⟨[("a", [1])], [("a", 2)], [("a", ["00"])]⟩
    "a 0.5 2.0 0 0" "a" (1/2) 2 "0" "0"
    (by with_unfolding_all rfl) (by with_unfolding_all rfl) (by decide)
  exact ⟨h.1, h.2.2⟩

/-- Claim C1: on every non-skipped batch — with no requirement that
`data_iter_step % update_freq == 0`, because of the operator precedence of
the gating condition — a configured learning-rate schedule overwrites each
parameter group's `lr` with `lr_schedule_values[it]` (times `lr_scale` when
that key is present), where `it = start_steps + data_iter_step //
update_freq`; the weight-decay overwrite additionally requires a weight-decay
schedule and a positive group decay. -/
theorem processBatch_lr_every_batch (cfg : TrainCfg) (st : TrainState) (i : ℕ)
    (sched : ℕ → ℚ) (hlr : cfg.lrSchedule = some sched)
    (hskip : i / cfg.updateFreq < cfg.numTrainingStepsPerEpoch) :
    (processBatch cfg st i).paramGroups =
      st.paramGroups.map (fun g =>
        { g with
          lr :=
            match g.lr_scale with
            | some sc => sched (cfg.startSteps + i / cfg.updateFreq) * sc
            | none => sched (cfg.startSteps + i / cfg.updateFreq)
          weight_decay :=
            match cfg.wdSchedule with
            | some wsched =>
                if g.weight_decay > 0 then wsched (cfg.startSteps + i / cfg.updateFreq)
                else g.weight_decay
            | none => g.weight_decay }) := by
  unfold processBatch
  rw [if_neg (Nat.not_le.mpr hskip)]
  simp only [hlr, Option.isSome_some, Bool.true_or, if_true]
  cases hsc : cfg.scaler <;>
    simp only [hsc] <;>
    cases cfg.hasLogWriter <;>
    simp only [if_true, if_false, Bool.false_eq_true] <;>
    · congr 1
      funext g
      cases hls : g.lr_scale <;> cases hw : cfg.wdSchedule <;>
        simp only [updateParamGroup, hls, hw] <;>
        split_ifs <;> rfl

/-- Witness for C1 at batch index 3 with update frequency 2: index 3 is not
an accumulation-window boundary (`3 % 2 ≠ 0`), yet both groups' learning
rates are overwritten from the schedule (`it = 10 + 3 // 2 = 11`), the first
scaled by its `lr_scale = 1/2`, while only the positive-decay group's decay
is overwritten. -/
theorem processBatch_lr_every_batch_witness :
    (3 : ℕ) % 2 ≠ 0 ∧ (3 : ℕ) / 2 < 5 ∧
    (processBatch
        ⟨10, some (fun n => (n : ℚ)), some (fun _ => 7), 5, 2, .plainNone, false, false⟩
        (initTrainState [⟨1, some (1/2), 3⟩, ⟨1, none, 0⟩]) 3).paramGroups =
      [⟨11/2, some (1/2), 7⟩, ⟨11, none, 0⟩] := by
  refine ⟨by decide, by decide, ?_⟩
  have h := processBatch_lr_every_batch
    ⟨10, some (fun n => (n : ℚ)), some (fun _ => 7), 5, 2, .plainNone, false, false⟩
    (initTrainState [⟨1, some (1/2), 3⟩, ⟨1, none, 0⟩]) 3
    (fun n => (n : ℚ)) rfl (by decide)
  exact h.trans (by with_unfolding_all rfl)

/-- For any configuration, one batch advances the optimizer-step counter by
one exactly when the batch is not skipped and is the last micro-batch of its
accumulation window (`(data_iter_step + 1) % update_freq == 0`); in the
framework-managed path this is the point where DeepSpeed performs the
underlying optimizer step. -/
theorem processBatch_optimizerSteps (cfg : TrainCfg) (st : TrainState) (i : ℕ) :
    (processBatch cfg st i).optimizerSteps =
      st.optimizerSteps +
        (if i / cfg.updateFreq < cfg.numTrainingStepsPerEpoch ∧ (i + 1) % cfg.updateFreq = 0
          then 1 else 0) := by
  unfold processBatch
  by_cases h1 : cfg.numTrainingStepsPerEpoch ≤ i / cfg.updateFreq
  · rw [if_pos h1, if_neg (by rintro ⟨h, _⟩; exact absurd h (Nat.not_lt.mpr h1))]
    simp
  · rw [if_neg h1]
    have h1' := Nat.not_le.mp h1
    by_cases h2 : (i + 1) % cfg.updateFreq = 0 <;>
      cases hsc : cfg.scaler <;> cases hlw : cfg.hasLogWriter <;>
        simp [hsc, hlw, h1', h2]

theorem foldl_processBatch_optimizerSteps (cfg : TrainCfg) (l : List ℕ) (st : TrainState) :
    (l.foldl (processBatch cfg) st).optimizerSteps =
      st.optimizerSteps + l.countP (fun i =>
        decide (i / cfg.updateFreq < cfg.numTrainingStepsPerEpoch) &&
          ((i + 1) % cfg.updateFreq == 0)) := by
  induction l generalizing st with
  | nil => simp
  | cons a l ih =>
      simp only [List.foldl_cons, List.countP_cons, ih, processBatch_optimizerSteps]
      by_cases h : a / cfg.updateFreq < cfg.numTrainingStepsPerEpoch ∧ (a + 1) % cfg.updateFreq = 0
      · rw [if_pos h, if_pos (by simp [h.1, h.2])]; omega
      · rw [if_neg h, if_neg (by simpa [Decidable.not_and_iff_or_not] using h)]
        omega

theorem countP_range_one_window (U : ℕ) (hU : 0 < U) :
    (List.range U).countP (fun j => (j + 1) % U == 0) = 1 := by
  obtain ⟨V, rfl⟩ : ∃ V, U = V + 1 := ⟨U - 1, (Nat.succ_pred_eq_of_pos hU).symm⟩
  rw [List.range_succ, List.countP_append]
  have h0 : (List.range V).countP (fun j => (j + 1) % (V + 1) == 0) = 0 := by
    rw [List.countP_eq_zero]
    intro j hj
    have hjV : j < V := List.mem_range.mp hj
    simp [Nat.mod_eq_of_lt (by omega : j + 1 < V + 1)]
  simp [h0, Nat.mod_self]

theorem countP_range_windows (N U : ℕ) (hU : 0 < U) :
    (List.range (N * U)).countP (fun i => (i + 1) % U == 0) = N := by
  induction N with
  | zero => simp
  | succ n ih =>
      have hsplit : (n + 1) * U = n * U + U := by ring
      rw [hsplit, List.range_add, List.countP_append, ih, List.countP_map]
      have hoff : (List.range U).countP ((fun i => (i + 1) % U == 0) ∘ (fun x => n * U + x)) =
          (List.range U).countP (fun j => (j + 1) % U == 0) := by
        apply List.countP_congr
        intro j _
        have hmod : (n * U + j + 1) % U = (j + 1) % U := by
          rw [Nat.add_assoc, Nat.mul_comm, Nat.mul_add_mod]
        simp [Function.comp, hmod]
      rw [hoff, countP_range_one_window U hU]

/-- Claim C3: over a data source yielding `N * U` batches with `N` training
steps per epoch and update frequency `U`, the epoch performs exactly `N`
optimizer-step invocations — one per accumulation window, not one per raw
batch — in the framework-managed (`loss_scaler is None`) and plain-optimizer
(`loss_scaler == 'none'`) paths. -/
theorem train_one_epoch_optimizer_steps (cfg : TrainCfg) (groups : List ParamGroup)
    (N U : ℕ) (hU : 0 < U) (hfreq : cfg.updateFreq = U)
    (hsteps : cfg.numTrainingStepsPerEpoch = N)
    (_hscaler : cfg.scaler = ScalerCfg.deepspeed ∨ cfg.scaler = ScalerCfg.plainNone) :
    (train_one_epoch cfg (N * U) groups).optimizerSteps = N := by
  unfold train_one_epoch
  rw [foldl_processBatch_optimizerSteps]
  have hcong : (List.range (N * U)).countP (fun i =>
      decide (i / cfg.updateFreq < cfg.numTrainingStepsPerEpoch) &&
        ((i + 1) % cfg.updateFreq == 0)) =
      (List.range (N * U)).countP (fun i => (i + 1) % U == 0) := by
    apply List.countP_congr
    intro i hi
    have hiN : i < N * U := List.mem_range.mp hi
    have hdiv : i / U < N := (Nat.div_lt_iff_lt_mul hU).mpr hiN
    simp [hfreq, hsteps, hdiv]
  rw [hcong, countP_range_windows N U hU]
  simp [initTrainState]

/-- Witness for C3: 2 steps per epoch, update frequency 3, 6 batches — the
framework-managed path performs exactly 2 optimizer steps. -/
theorem train_one_epoch_optimizer_steps_witness :
    (0 : ℕ) < 3 ∧
    (train_one_epoch ⟨0, none, none, 2, 3, .deepspeed, true, false⟩ (2 * 3)
        [⟨1, none, 1⟩]).optimizerSteps = 2 :=
  ⟨by decide,
   train_one_epoch_optimizer_steps ⟨0, none, none, 2, 3, .deepspeed, true, false⟩
     [⟨1, none, 1⟩] 2 3 (by decide) rfl rfl (Or.inl rfl)⟩

/-- Claim C4 (counterexample): with the claim's literal body lines
`sample1 [0.9] 1.0 0 0` and `sample1 [0.7] 1.0 0 1` in both worker files,
`merge` aborts on `float("[0.9]")` instead of returning 0.04. -/
theorem merge_end_to_end_bracket_counterexample :
    merge [["0.5", "sample1 [0.9] 1.0 0 0", "sample1 [0.7] 1.0 0 1"],
           ["0.5", "sample1 [0.9] 1.0 0 0", "sample1 [0.7] 1.0 0 1"]] =
      .error .badLine := by
  with_unfolding_all rfl

/-- Claim C4 (amended): with bracket-free prediction fields (`sample1 0.9 1.0
0 0` and `sample1 0.7 1.0 0 1` in both worker files, header `0.5`), the two
retained predictions 0.9 and 0.7 are averaged to 0.8 and the final score is
`((0.9 + 0.7)/2 - 1.0)^2 = 0.04`. -/
theorem merge_end_to_end_score :
    merge [["0.5", "sample1 0.9 1.0 0 0", "sample1 0.7 1.0 0 1"],
           ["0.5", "sample1 0.9 1.0 0 0", "sample1 0.7 1.0 0 1"]] =
      .ok (((9/10 + 7/10) / 2 - 1) ^ 2) ∧
    (((9/10 + 7/10) / 2 - 1 : ℚ) ^ 2) = 1/25 := by
  exact ⟨by with_unfolding_all rfl, by norm_num⟩

theorem finalTestLoop_foldl_aux (modelF : ℚ → ℚ) :
    ∀ (batches : List TestBatch) (hne : batches ≠ [])
      (a : Option ℚ) (r : List TestRecord) (ls : List ℚ),
      batches.foldl
        (fun acc b =>
          (some (batchLoss modelF b),
           acc.2.1 ++ batchRecords modelF b,
           acc.2.2 ++ [batchLoss modelF b]))
        (a, r, ls) =
      (some (batchLoss modelF (batches.getLast hne)),
       r ++ (batches.map (batchRecords modelF)).flatten,
       ls ++ batches.map (batchLoss modelF))
  | [], hne => absurd rfl hne
  | [b], _ => by
      intro a r ls
      simp
  | b :: b2 :: bs, _ => by
      intro a r ls
      rw [List.foldl_cons, finalTestLoop_foldl_aux modelF (b2 :: bs) (by simp)]
      simp [List.getLast_cons, List.append_assoc]

/-- Claim C6: for a non-empty data source, the result file written by
`final_test` consists of a header line holding the scalar loss of the *last*
batch processed (not an aggregate), followed by exactly one record per
evaluated sample — identifier, prediction, label, chunk index, split index —
in encounter order; the content is the same whether or not the file existed
before (it is created if absent, then truncated), and the returned
statistics are the average per-batch loss. -/
theorem final_test_output_format (modelF : ℚ → ℚ) (batches : List TestBatch)
    (prev : Option (List TestFileLine)) (h : batches ≠ []) :
    (final_test modelF batches prev).1 =
      TestFileLine.header (batchLoss modelF (batches.getLast h)) ::
        (batches.map (batchRecords modelF)).flatten.map TestFileLine.record ∧
    (final_test modelF batches prev).2 =
      .ok (listMean (batches.map (batchLoss modelF))) := by
  unfold final_test finalTestLoop
  rw [finalTestLoop_foldl_aux modelF batches h none [] []]
  simp

/-- Witness for C6 on a one-batch source: the file content is the header `1`
(the batch's MSE loss) followed by the single record `v 1 2 0 0`. -/
theorem final_test_output_format_witness :
    ([⟨[1], [2], ["v"], [0], [0]⟩] : List TestBatch) ≠ [] ∧
    (final_test (fun x => x) [⟨[1], [2], ["v"], [0], [0]⟩] none).1 =
      [TestFileLine.header 1, TestFileLine.record ⟨"v", 1, 2, 0, 0⟩] := by
  refine ⟨by simp, ?_⟩
  have h := final_test_output_format (fun x => x) [⟨[1], [2], ["v"], [0], [0]⟩] none (by simp)
  exact h.1.trans (by with_unfolding_all rfl)

/-- The deduplication keys recorded for an identifier. -/
def posOf (st : MergeState) (name : String) : List String :=
  (dictGet st.pos name).getD []

/-- The three dictionaries of `merge` always hold the same key set; this is
the invariant that makes the duplicate-skip reasoning sound. -/
def MergeWF (st : MergeState) : Prop :=
  ∀ n, (dictGet st.feats n).isSome ↔ (dictGet st.pos n).isSome

theorem initMergeState_wf : MergeWF initMergeState := by
  intro n; simp [initMergeState, dictGet]

theorem posOf_mem_isSome {st : MergeState} {n k : String} (hk : k ∈ posOf st n) :
    (dictGet st.pos n).isSome := by
  unfold posOf at hk
  cases h : dictGet st.pos n with
  | none => rw [h] at hk; simp at hk
  | some l => simp

theorem wf_set (st : MergeState) (n : String) (f : List ℚ) (lb : ℚ) (p : List String)
    (h : MergeWF st) :
    MergeWF ⟨dictSet st.feats n f, dictSet st.label n lb, dictSet st.pos n p⟩ := by
  intro m
  by_cases hm : m = n
  · subst hm; simp [dictGet_dictSet_self]
  · simp only [dictGet_dictSet_ne _ _ _ _ hm]
    exact h m

theorem initName_wf {st : MergeState} (n : String) (h : MergeWF st) :
    MergeWF (initName st n) := by
  unfold initName
  split
  · exact wf_set st n [] 0 [] h
  · exact h

theorem processParsed_wf {st : MergeState} (h : MergeWF st) (n : String) (d l : ℚ)
    (c s : String) : MergeWF (processParsed st n d l c s) := by
  simp only [processParsed]
  have h1 := initName_wf n h
  split
  · exact h1
  · exact wf_set (initName st n) n _ _ _ h1

theorem initName_eq_of_mem {st : MergeState} {n k : String} (h : MergeWF st)
    (hk : k ∈ posOf st n) : initName st n = st := by
  unfold initName
  have hpos := posOf_mem_isSome hk
  have hfeats : (dictGet st.feats n).isSome := (h n).mpr hpos
  rw [if_neg (by simp [Option.isNone_iff_eq_none, Option.isSome_iff_ne_none.mp hfeats])]

theorem processParsed_skip {st : MergeState} (h : MergeWF st) {n c s : String}
    (d l : ℚ) (hk : c ++ s ∈ posOf st n) :
    processParsed st n d l c s = st := by
  simp only [processParsed, initName_eq_of_mem h hk]
  rw [if_pos (by simpa [posOf] using hk)]

theorem posOf_initName_mono {st : MergeState} (h : MergeWF st) {m k : String} (n : String)
    (hk : k ∈ posOf st m) : k ∈ posOf (initName st n) m := by
  by_cases hm : m = n
  · subst hm
    rw [initName_eq_of_mem h hk]; exact hk
  · unfold initName
    split
    · unfold posOf
      simp only [dictGet_dictSet_ne _ _ _ _ hm]
      exact hk
    · exact hk

theorem posOf_processParsed_mono {st : MergeState} (h : MergeWF st) {m k : String}
    (n : String) (d l : ℚ) (c s : String) (hk : k ∈ posOf st m) :
    k ∈ posOf (processParsed st n d l c s) m := by
  simp only [processParsed]
  have h1 : k ∈ posOf (initName st n) m := posOf_initName_mono h n hk
  split
  · exact h1
  · by_cases hm : m = n
    · subst hm
      unfold posOf at h1 ⊢
      simp only [dictGet_dictSet_self]
      simp [List.mem_append.mpr (Or.inl h1)]
    · unfold posOf at h1 ⊢
      simp only [dictGet_dictSet_ne _ _ _ _ hm]
      exact h1

theorem posOf_processParsed_key (st : MergeState) (n : String) (d l : ℚ) (c s : String) :
    c ++ s ∈ posOf (processParsed st n d l c s) n := by
  simp only [processParsed]
  split
  · next hmem => simpa [posOf] using hmem
  · unfold posOf
    simp [dictGet_dictSet_self]


theorem processLine_ok_cases {st st' : MergeState} {line : String}
    (h : processLine st line = .ok st') :
    ∃ n d l c s, parseLine? line = some (n, d, l, c, s) ∧
      st' = processParsed st n d l c s := by
  unfold processLine at h
  cases hp : parseLine? line with
  | none => rw [hp] at h; cases h
  | some t =>
      obtain ⟨n, d, l, c, s⟩ := t
      rw [hp] at h
      injection h with h2
      exact ⟨n, d, l, c, s, rfl, h2.symm⟩

theorem processLines_wf {lines : List String} :
    ∀ {st st' : MergeState}, MergeWF st → processLines st lines = .ok st' →
      MergeWF st' := by
  induction lines with
  | nil =>
      intro st st' h heq
      simp only [processLines] at heq
      injection heq with h2
      exact h2 ▸ h
  | cons line rest ih =>
      intro st st' h heq
      unfold processLines at heq
      cases hl : processLine st line with
      | error e => rw [hl] at heq; cases heq
      | ok st1 =>
          rw [hl] at heq
          obtain ⟨n, d, l, c, s, hp, rfl⟩ := processLine_ok_cases hl
          exact ih (processParsed_wf h n d l c s) heq

theorem processLines_mem_mono {lines : List String} :
    ∀ {st st' : MergeState} {m k : String}, MergeWF st →
      processLines st lines = .ok st' → k ∈ posOf st m → k ∈ posOf st' m := by
  induction lines with
  | nil =>
      intro st st' m k h heq hk
      simp only [processLines] at heq
      injection heq with h2
      exact h2 ▸ hk
  | cons line rest ih =>
      intro st st' m k h heq hk
      unfold processLines at heq
      cases hl : processLine st line with
      | error e => rw [hl] at heq; cases heq
      | ok st1 =>
          rw [hl] at heq
          obtain ⟨n, d, l, c, s, hp, rfl⟩ := processLine_ok_cases hl
          exact ih (processParsed_wf h n d l c s) heq
            (posOf_processParsed_mono h n d l c s hk)

theorem processLines_keys {lines : List String} :
    ∀ {st st' : MergeState}, MergeWF st → processLines st lines = .ok st' →
      ∀ line ∈ lines, ∃ n d l c s, parseLine? line = some (n, d, l, c, s) ∧
        c ++ s ∈ posOf st' n := by
  induction lines with
  | nil => intro st st' _ _ line hline; cases hline
  | cons line0 rest ih =>
      intro st st' h heq line hline
      unfold processLines at heq
      cases hl : processLine st line0 with
      | error e => rw [hl] at heq; cases heq
      | ok st1 =>
          rw [hl] at heq
          obtain ⟨n, d, l, c, s, hp, hst1⟩ := processLine_ok_cases hl
          rcases List.mem_cons.mp hline with rfl | hmem
          · refine ⟨n, d, l, c, s, hp, ?_⟩
            subst hst1
            exact processLines_mem_mono (processParsed_wf h n d l c s) heq
              (posOf_processParsed_key st n d l c s)
          · subst hst1
            exact ih (processParsed_wf h n d l c s) heq line hmem

theorem processLines_noop {lines : List String} :
    ∀ {st : MergeState}, MergeWF st →
      (∀ line ∈ lines, ∃ n d l c s, parseLine? line = some (n, d, l, c, s) ∧
        c ++ s ∈ posOf st n) →
      processLines st lines = .ok st := by
  induction lines with
  | nil => intro st _ _; rfl
  | cons line rest ih =>
      intro st h hall
      obtain ⟨n, d, l, c, s, hp, hk⟩ := hall line (List.mem_cons_self line rest)
      have hskip : processLine st line = .ok st := by
        simp [processLine, hp, processParsed_skip h d l hk]
      unfold processLines
      rw [hskip]
      exact ih h (fun l2 hl2 => hall l2 (List.mem_cons_of_mem _ hl2))

theorem processLines_append (a b : List String) :
    ∀ st, processLines st (a ++ b) =
      match processLines st a with
      | .ok m => processLines m b
      | .error e => .error e := by
  induction a with
  | nil => intro st; simp [processLines]
  | cons line rest ih =>
      intro st
      simp only [List.cons_append, processLines]
      cases hl : processLine st line with
      | error e => rfl
      | ok st1 => simpa using ih st1

theorem processLines_dup {st st' : MergeState} {b : List String} (h : MergeWF st)
    (heq : processLines st b = .ok st') :
    processLines st (b ++ b) = .ok st' := by
  rw [processLines_append b b st, heq]
  exact processLines_noop (processLines_wf h heq)
    (fun line hline => processLines_keys h heq line hline)

/-- Worker-file content in which every record line appears twice. -/
def dupRecords (file : List String) : List String := file ++ file.drop 1

theorem drop_one_dupRecords (file : List String) :
    (dupRecords file).drop 1 = file.drop 1 ++ file.drop 1 := by
  cases file <;> simp [dupRecords]

theorem processFiles_dup {files : List (List String)} :
    ∀ {st st' : MergeState}, MergeWF st → processFiles st files = .ok st' →
      processFiles st (files.map dupRecords) = .ok st' := by
  induction files with
  | nil => intro st st' _ heq; simpa using heq
  | cons file rest ih =>
      intro st st' h heq
      unfold processFiles at heq ⊢
      simp only [List.map_cons]
      cases hl : processLines st (file.drop 1) with
      | error e => rw [hl] at heq; cases heq
      | ok st1 =>
          rw [hl] at heq
          rw [drop_one_dupRecords, processLines_dup h hl]
          exact ih (processLines_wf h hl) heq

/-- Claim C5: merger idempotence — for any worker files on which `merge`
succeeds, duplicating every file's record lines yields exactly the same
final score, because each duplicated record carries an already-seen
`chunk + split` key for its identifier and is skipped by the deduplication
set. -/
theorem merge_idempotent_duplicated (files : List (List String)) (q : ℚ)
    (h : merge files = .ok q) : merge (files.map dupRecords) = .ok q := by
  unfold merge at h ⊢
  cases hf : processFiles initMergeState files with
  | error e => rw [hf] at h; cases h
  | ok st =>
      rw [hf] at h
      rw [processFiles_dup initMergeState_wf hf]
      exact h

/-- Witness for C5: one worker file with one record; the duplicated input
produces the same score 1. -/
theorem merge_idempotent_duplicated_witness :
    merge [["0.5", "a 1.0 2.0 0 0"]] = .ok 1 ∧
    merge ([["0.5", "a 1.0 2.0 0 0"]].map dupRecords) = .ok 1 :=
  ⟨by with_unfolding_all rfl,
   merge_idempotent_duplicated _ 1 (by with_unfolding_all rfl)⟩

end EngineRegression
